import Mathlib

/-!
Verification of the tomato object-store core against its specification.

The Go sources under scrutiny are controllers/classes.go (request
preparation, Get/Find post-processing), rest/destroy.go (the Destroy
orchestrator) and the AccountLockout test file.  Dynamic JSON values
(Go interface values produced by json.Unmarshal into types.M) are
embedded as the inductive Value below; a Go map of type types.M is
embedded as an association list with unique keys (Assoc).  External
collaborators that the sources call but whose code is not part of the
repository snapshot (json.Unmarshal, base64 decoding, the session
resolver, the Store adapter) are passed in as function parameters.
-/

namespace Tomato

/-- A dynamic JSON value, the shallow embedding of a Go interface value
produced by json.Unmarshal: null, string, number, boolean, array or
object. -/
inductive Value where
  | null
  | str (s : String)
  | num (n : Int)
  | boolVal (b : Bool)
  | arr (elems : List Value)
  | obj (fields : List (String × Value))

/-- Embedding of the Go map type types.M = map from string to interface
value, as an association list whose keys are unique. -/
abbrev Assoc := List (String × Value)

/-- Go map read m[k]: the value stored under k, or none when the key is
absent (Go returns the nil interface). -/
def mget : Assoc → String → Option Value
  | [], _ => none
  | (k', v) :: rest, k => if k' = k then some v else mget rest k

/-- Go delete(m, k): removes the key when present, no-op otherwise. -/
def mdel (m : Assoc) (k : String) : Assoc :=
  m.filter (fun p => decide (p.1 ≠ k))

/-- Go map write m[k] = v: replaces the binding when the key is present,
appends it otherwise. -/
def mset (m : Assoc) (k : String) (v : Value) : Assoc :=
  if (mget m k).isSome then m.map (fun p => if p.1 = k then (k, v) else p)
  else m ++ [(k, v)]

/-- A Go test of the form m[k] != nil: the key must be present and its
value must not be the nil interface (JSON null). -/
def mgetNonNil (m : Assoc) (k : String) : Option Value :=
  match mget m k with
  | some Value.null => none
  | r => r

/-- A Go type assertion v.(string): succeeds exactly on string values;
any other value (including the nil interface) panics. -/
def assertString : Value → Option String
  | Value.str s => some s
  | _ => none

/-- Embedding of utils.A: succeeds exactly on array values, yielding the
element list; any other value yields the nil slice. -/
def utilsA : Option Value → Option (List Value)
  | some (Value.arr l) => some l
  | _ => none

/-- Embedding of utils.M: succeeds exactly on object values, yielding
the field map; any other value yields the nil map. -/
def utilsM : Value → Option Assoc
  | Value.obj m => some m
  | _ => none

@[simp] theorem mget_nil (k : String) : mget [] k = none := rfl

@[simp] theorem mget_cons (pk : String) (pv : Value) (rest : Assoc) (k : String) :
    mget ((pk, pv) :: rest) k = if pk = k then some pv else mget rest k := rfl

@[simp] theorem mget_mdel (m : Assoc) (k k' : String) :
    mget (mdel m k) k' = if k' = k then none else mget m k' := by
  induction m with
  | nil => simp [mdel]
  | cons p rest ih =>
    obtain ⟨pk, pv⟩ := p
    by_cases hpk : pk = k
    · subst hpk
      by_cases hk' : k' = pk
      · subst hk'
        simpa [mdel, List.filter_cons] using ih
      · have hne : ¬ pk = k' := fun h => hk' h.symm
        simpa [mdel, List.filter_cons, hk', hne] using ih
    · by_cases hpk' : pk = k'
      · subst hpk'
        simp [mdel, List.filter_cons, hpk]
      · simpa [mdel, List.filter_cons, hpk, hpk'] using ih

theorem mget_map_replace (m : Assoc) (k k' : String) (v : Value) :
    mget (m.map (fun p => if p.1 = k then (k, v) else p)) k' =
      if k' = k then (mget m k).map (fun _ => v) else mget m k' := by
  induction m with
  | nil => simp
  | cons p rest ih =>
    obtain ⟨pk, pv⟩ := p
    by_cases hpk : pk = k
    · subst hpk
      by_cases hk' : k' = pk
      · subst hk'
        simp [ih]
      · have hne : ¬ pk = k' := fun h => hk' h.symm
        simp [ih, hk', hne]
    · by_cases hpk' : pk = k'
      · subst hpk'
        simp [hpk]
      · simp [ih, hpk, hpk']

theorem mget_append_single (m : Assoc) (k k' : String) (v : Value) :
    mget (m ++ [(k, v)]) k' =
      match mget m k' with
      | some w => some w
      | none => if k = k' then some v else none := by
  induction m with
  | nil => simp [mget]
  | cons p rest ih =>
    obtain ⟨pk, pv⟩ := p
    by_cases hpk : pk = k'
    · simp [hpk]
    · simp [hpk, ih]

@[simp] theorem mget_mset (m : Assoc) (k k' : String) (v : Value) :
    mget (mset m k v) k' = if k' = k then some v else mget m k' := by
  unfold mset
  by_cases hs : (mget m k).isSome
  · rw [if_pos hs, mget_map_replace]
    by_cases hk' : k' = k
    · subst hk'
      obtain ⟨w, hw⟩ := Option.isSome_iff_exists.mp hs
      simp [hw]
    · simp [hk']
  · rw [if_neg hs, mget_append_single]
    by_cases hk' : k' = k
    · subst hk'
      have hmn : mget m k' = none := Option.not_isSome_iff_eq_none.mp hs
      simp [hmn]
    · have hne : ¬ k = k' := fun h => hk' h.symm
      cases hmk : mget m k' <;> simp [hne, hk']

theorem mdel_of_absent (m : Assoc) (k : String) (h : mget m k = none) :
    mdel m k = m := by
  induction m with
  | nil => rfl
  | cons p rest ih =>
    obtain ⟨pk, pv⟩ := p
    by_cases hpk : pk = k
    · simp [hpk] at h
    · simp only [mget_cons, hpk, if_false] at h
      simp [mdel, List.filter_cons, hpk] at ih ⊢
      exact ih h

/-- Outcome of a Go computation that can hit a failing type assertion or
an out-of-range index: either a runtime panic or a value. -/
inductive Panics (A : Type) where
  | panicked
  | value (a : A)

/-- Error codes of the errs package (not under src; the numeric values
follow the Parse error taxonomy the spec references; only their identity
matters to the claims). -/
def objectNotFound : Int := 101

def invalidJSON : Int := 107

def invalidQuery : Int := 102

/-- An application error: a stable numeric code plus a message, the
embedding of the errs package error values. -/
structure ApiErr where
  code : Int
  message : String
deriving DecidableEq

/-- The server configuration fields consulted by classes.go Prepare. -/
structure Config where
  appID : String
  masterKey : String
  clientKey : String

/-- Embedding of controllers.RequestInfo: the per-request credential
information extracted from headers and body. -/
structure RequestInfo where
  appID : String
  masterKey : String
  clientKey : String
  sessionToken : String
  installationID : String
  clientVersion : String
deriving DecidableEq

/-- Embedding of rest.Auth: the authorization context of a request.
The rest package is not under src; the fields are the ones classes.go
and destroy.go read and write (IsMaster, User, UserRoles,
InstallationID), plus the fetched flag for the lazily computed roles
the spec describes. -/
structure Auth where
  isMaster : Bool
  user : Option Assoc
  userRoles : List String
  fetchedRoles : Bool
  installationID : String

/-- External collaborators Prepare calls: JSON decoding (none is a parse
error; some b is success, where b may itself be the nil map, as for the
JSON text null), base64 decoding, and the session resolver of the rest
package. -/
structure PrepareEnv where
  unmarshal : String → Option (Option Assoc)
  b64decode : String → Option String
  getAuthForSessionToken : String → String → Except ApiErr Auth

/-- The request data Prepare reads: header values, the raw request body
(none when absent) and the request URL. -/
structure HttpRequest where
  appIDHeader : String
  masterKeyHeader : String
  clientKeyHeader : String
  sessionTokenHeader : String
  installationIDHeader : String
  clientVersionHeader : String
  contentTypeHeader : String
  authorizationHeader : String
  requestBody : Option String
  url : String

/-- Embedding of strings.HasPrefix, computed on the character lists of
the strings (the sources only apply it to ASCII header values, where Go
byte positions and characters coincide). -/
def goStartsWith (s pre : String) : Bool :=
  pre.data.isPrefixOf s.data

/-- Embedding of strings.HasSuffix, computed on the character lists. -/
def goEndsWith (s suf : String) : Bool :=
  suf.data.isSuffixOf s.data

/-- Embedding of strings.ToLower, restricted to the ASCII characters
the authorization header uses. -/
def goToLower (s : String) : String :=
  ⟨s.data.map Char.toLower⟩

/-- Embedding of the substring from character index n on (Go slicing
header[n:] on the ASCII authorization header). -/
def goDrop (s : String) (n : Nat) : String :=
  ⟨s.data.drop n⟩

/-- Splits a character list at every occurrence of the separator. -/
def splitOnChar (c : Char) : List Char → List (List Char)
  | [] => [[]]
  | x :: xs =>
    let r := splitOnChar c xs
    if x = c then [] :: r
    else
      match r with
      | h :: t => (x :: h) :: t
      | [] => [[x]]

/-- Embedding of strings.Split with a one-character separator. -/
def goSplit (s : String) (sep : Char) : List String :=
  (splitOnChar sep s.data).map (fun l => ⟨l⟩)

/-- Embedding of decodeBase64 in classes.go: base64 decoding that
returns the empty string on error. -/
def decodeBase64 (b64 : String → Option String) (str : String) : String :=
  match b64 str with
  | some data => data
  | none => ""

/-- Embedding of httpAuth in classes.go: parses a basic authorization
header into appId, masterKey and javascriptKey. -/
def httpAuth (b64 : String → Option String) (authorization : String) :
    Option (String × String × String) :=
  if authorization = "" then none
  else
    let header := authorization
    let authPrefix := "basic "
    if goStartsWith (goToLower header) authPrefix then
      let encodedAuth := goDrop header authPrefix.data.length
      let credentials := goSplit (decodeBase64 b64 encodedAuth) ':'
      match credentials with
      | [appID, key] =>
        let jsKeyPrefix := "javascript-key="
        if goStartsWith key jsKeyPrefix then
          some (appID, "", goDrop key jsKeyPrefix.data.length)
        else
          some (appID, key, "")
      | _ => none
    else none

/-- Outcome of the body-decoding step of Prepare (classes.go lines
73-96): either the invalid-JSON rejection, or the parsed JSONBody and
RawBody. -/
inductive ParseBodyResult where
  | reject
  | parsed (jsonBody : Option Assoc) (rawBody : Option String)
deriving Inhabited

/-- Embedding of the body-decoding step of Prepare: a body under a
content type starting with application/json must parse, otherwise the
parse is merely attempted and the raw bytes are kept on failure. -/
def parseBody (unmarshal : String → Option (Option Assoc))
    (contentType : String) (body : Option String) : ParseBodyResult :=
  match body with
  | none => .parsed none none
  | some b =>
    if goStartsWith contentType "application/json" then
      match unmarshal b with
      | none => .reject
      | some object => .parsed object none
    else
      match unmarshal b with
      | none => .parsed none (some b)
      | some object => .parsed object none

/-- Embedding of classes.go lines 98-104: the Unity SDK _noBody key and
the _RevocableSession key are removed from a present JSON body. -/
def stripNoBody (jsonBody : Option Assoc) : Option Assoc :=
  match jsonBody with
  | some m => some (mdel (mdel m "_noBody") "_RevocableSession")
  | none => none

/-- One reserved-key consumption step of Prepare: when the key holds a
non-nil value it is type-asserted to a string (panicking otherwise) and
deleted from the body. -/
def consumeStr (m : Assoc) (k : String) : Panics (Option String × Assoc) :=
  match mgetNonNil m k with
  | some v =>
    match assertString v with
    | some s => .value (some s, mdel m k)
    | none => .panicked
  | none => .value (none, m)

/-- Outcome of the body-override step of Prepare (classes.go lines
106-141): an early 403 response, a panic on a failing type assertion,
or the updated info and body (plus the content type the body may have
installed). -/
inductive OverridesResult where
  | respond403
  | panicked
  | okOv (info : RequestInfo) (jsonBody : Option Assoc) (contentTypeSet : Option String)

/-- Embedding of the body-override step of Prepare: only when no appID
arrived through headers are the reserved keys read out of the JSON body
into the request info (and deleted); without an appID in the body the
request is rejected. -/
def bodyOverrides (info : RequestInfo) (jsonBody : Option Assoc) : OverridesResult :=
  if info.appID = "" then
    match jsonBody.map (fun m => mdel m "_RevocableSession") with
    | some m =>
      match mgetNonNil m "_ApplicationId" with
      | some appVal =>
        match assertString appVal with
        | none => .panicked
        | some a =>
          let info := { info with appID := a }
          let m := mdel m "_ApplicationId"
          match consumeStr m "_ClientKey" with
          | .panicked => .panicked
          | .value (ck, m) =>
            let info := { info with clientKey := ck.getD info.clientKey }
            match consumeStr m "_InstallationId" with
            | .panicked => .panicked
            | .value (iid, m) =>
              let info := { info with installationID := iid.getD info.installationID }
              match consumeStr m "_SessionToken" with
              | .panicked => .panicked
              | .value (st, m) =>
                let info := { info with sessionToken := st.getD info.sessionToken }
                match consumeStr m "_MasterKey" with
                | .panicked => .panicked
                | .value (mk, m) =>
                  let info := { info with masterKey := mk.getD info.masterKey }
                  match consumeStr m "_ContentType" with
                  | .panicked => .panicked
                  | .value (ct, m) => .okOv info (some m) ct
      | none => .respond403
    | none => .respond403
  else .okOv info jsonBody none

/-- Embedding of classes.go lines 147-153: a base64 field in the JSON
body marks a file upload; its decoded bytes replace the raw body when
decoding succeeds (the type assertion on a non-string value panics). -/
def base64Body (b64 : String → Option String) (jsonBody : Option Assoc)
    (rawBody : Option String) : Panics (Option String) :=
  match jsonBody with
  | some m =>
    match mgetNonNil m "base64" with
    | some v =>
      match assertString v with
      | some s =>
        match b64 s with
        | some data => .value (some data)
        | none => .value rawBody
      | none => .panicked
    | none => .value rawBody
  | none => .value rawBody

/-- Outcome of Prepare: an early JSON response (with an optional HTTP
status override), a panic, or the request info, auth context and bodies
handed to the operation handlers. -/
inductive PrepareResult where
  | respond (status : Option Nat) (code : Int) (message : String)
  | proceed (info : RequestInfo) (auth : Auth) (jsonBody : Option Assoc) (rawBody : Option String)
  | panicked

/-- Embedding of the credential-validation tail of Prepare (classes.go
lines 158-190): appID must match the configuration, a matching master
key short-circuits to a master context, otherwise the client key must
match; then the session token (cleared on the login endpoint) is
resolved into the auth context. -/
def validateKeys (cfg : Config) (env : PrepareEnv) (url : String)
    (info : RequestInfo) (jsonBody : Option Assoc) (rawBody : Option String) :
    PrepareResult :=
  if info.appID ≠ cfg.appID then .respond (some 403) 403 "unauthorized"
  else if info.masterKey = cfg.masterKey then
    .proceed info
      { isMaster := true, user := none, userRoles := [], fetchedRoles := false,
        installationID := info.installationID } jsonBody rawBody
  else if info.clientKey ≠ cfg.clientKey then .respond (some 403) 403 "unauthorized"
  else
    let info := if goEndsWith url "/login/" then { info with sessionToken := "" } else info
    if info.sessionToken = "" then
      .proceed info
        { isMaster := false, user := none, userRoles := [], fetchedRoles := false,
          installationID := info.installationID } jsonBody rawBody
    else
      match env.getAuthForSessionToken info.sessionToken info.installationID with
      | .error e => .respond none e.code e.message
      | .ok auth => .proceed info auth jsonBody rawBody

/-- Embedding of ClassesController.Prepare: header extraction, basic
authorization, body decoding, reserved-key overrides, the base64 file
body and credential validation, in source order. -/
def prepare (cfg : Config) (env : PrepareEnv) (req : HttpRequest) : PrepareResult :=
  let info : RequestInfo :=
    { appID := req.appIDHeader, masterKey := req.masterKeyHeader,
      clientKey := req.clientKeyHeader, sessionToken := req.sessionTokenHeader,
      installationID := req.installationIDHeader,
      clientVersion := req.clientVersionHeader }
  let info :=
    match httpAuth env.b64decode req.authorizationHeader with
    | none => info
    | some (a, mk, jk) =>
      let info := { info with appID := a }
      let info := if mk ≠ "" then { info with masterKey := mk } else info
      if jk ≠ "" then { info with clientKey := jk } else info
  match parseBody env.unmarshal req.contentTypeHeader req.requestBody with
  | .reject => .respond none invalidJSON "invalid JSON"
  | .parsed jsonBody rawBody =>
    let jsonBody := stripNoBody jsonBody
    match bodyOverrides info jsonBody with
    | .respond403 => .respond (some 403) 403 "unauthorized"
    | .panicked => .panicked
    | .okOv info jsonBody _contentTypeSet =>
      match base64Body env.b64decode jsonBody rawBody with
      | .panicked => .panicked
      | .value rawBody => validateKeys cfg env req.url info jsonBody rawBody

/-- Outcome of the HandleGet tail: the served result map (possibly the
nil map), a served error, or a panic. -/
inductive GetOutcome where
  | success (result : Option Assoc)
  | failure (code : Int) (message : String)
  | panicked

/-- Go lookup result["objectId"] on a possibly-nil map: nil map lookups
yield the nil interface. -/
def lookupOpt (m : Option Assoc) (k : String) : Option Value :=
  match m with
  | some m => mget m k
  | none => none

/-- A Go type assertion v.(string) applied to an interface value that
may be nil: the nil interface panics like any non-string value. -/
def assertString' (v : Option Value) : Option String :=
  match v with
  | some (Value.str s) => some s
  | _ => none

/-- Embedding of the HandleGet tail (classes.go lines 290-308): the
result extraction from the rest.Get response, the empty-results check,
and the _User session-token rewrite.  The source condition is
results == nil AND len(results) == 0, so a non-nil empty list falls
through to the index expression results[0], a panic. -/
def handleGetOutput (className : String) (authUser : Option Assoc)
    (sessionToken : String) (response : Assoc) : GetOutcome :=
  match utilsA (mget response "results") with
  | none => .failure objectNotFound "Object not found."
  | some [] => .panicked
  | some (first :: _) =>
    let result := utilsM first
    if className = "_User" then
      let result := result.map (fun m => mdel m "sessionToken")
      match authUser with
      | some u =>
        match assertString' (lookupOpt result "objectId"),
              assertString' (mget u "objectId") with
        | some rid, some uid =>
          if rid = uid then
            .success (result.map (fun m => mset m "sessionToken" (Value.str sessionToken)))
          else .success result
        | _, _ => .panicked
      | none => .success result
    else .success result

/-- Embedding of the HandleGet handler body after rest.Get returns:
an error from rest.Get is served as is, a response goes through the
result extraction above. -/
def handleGet (restGetResult : Except ApiErr Assoc) (className : String)
    (authUser : Option Assoc) (sessionToken : String) : GetOutcome :=
  match restGetResult with
  | .error e => .failure e.code e.message
  | .ok response => handleGetOutput className authUser sessionToken response

/-- Embedding of the per-result rewrite in the HandleFind tail
(classes.go lines 404-409): a result that carries a non-nil
sessionToken has it replaced by the session token of the request when
that token is non-empty; non-object results are left alone (utils.M
yields the nil map and the nil-map lookup is nil). -/
def findTokenRewrite (sessionToken : String) (v : Value) : Value :=
  match v with
  | Value.obj m =>
    if (mgetNonNil m "sessionToken").isSome ∧ sessionToken ≠ "" then
      Value.obj (mset m "sessionToken" (Value.str sessionToken))
    else Value.obj m
  | other => other

/-- Embedding of utils.HasResults as used by HandleFind: whether the
response carries a results array (the utils package is not under src;
this follows its use as a guard for iterating the results). -/
def hasResults (response : Assoc) : Bool :=
  (utilsA (mget response "results")).isSome

/-- Embedding of the HandleFind tail (classes.go lines 402-413): every
result with a non-nil sessionToken is rewritten in place before the
response is served. -/
def handleFindOutput (sessionToken : String) (response : Assoc) : Assoc :=
  if hasResults response then
    mset response "results"
      (Value.arr (((utilsA (mget response "results")).getD []).map
        (findTokenRewrite sessionToken)))
  else response

/-- Whether a stored row is the row of the requesting user: the auth
context carries a user whose objectId is a string equal to the row's
objectId string. -/
def isRequestingUser (authUser : Option Assoc) (m : Assoc) : Bool :=
  match authUser with
  | some u =>
    match mget u "objectId", mget m "objectId" with
    | some (Value.str uid), some (Value.str rid) => uid = rid
    | _, _ => false
  | none => false

/-- Modelled from the spec: the redaction of one _User result by the
Find orchestrator (rest package, not under src): the sessionToken field
is removed unless the result is the requesting user, in which case the
current session token of the request is reattached in place of the
stored one (spec 4.6 step 5). -/
def redactUserOne (authUser : Option Assoc) (currentToken : String) (v : Value) : Value :=
  match v with
  | Value.obj m =>
    if isRequestingUser authUser m then
      Value.obj (mset m "sessionToken" (Value.str currentToken))
    else Value.obj (mdel m "sessionToken")
  | other => other

/-- Modelled from the spec: the Find orchestrator of the rest package
(not under src) redacts sessionToken from every _User result. -/
def restFindRedact (className : String) (authUser : Option Assoc)
    (currentToken : String) (results : List Value) : List Value :=
  if className = "_User" then results.map (redactUserOne authUser currentToken)
  else results

/-- The Find pipeline on class _User as observed by the HTTP caller:
the orchestrator-side redaction of the stored rows followed by the
HandleFind tail of classes.go. -/
def findUserPipeline (authUser : Option Assoc) (sessionToken : String)
    (storedResults : List Value) : Assoc :=
  handleFindOutput sessionToken
    [("results", Value.arr (restFindRedact "_User" authUser sessionToken storedResults))]

/-- The served result list of the _User Find pipeline. -/
def findUserResults (authUser : Option Assoc) (sessionToken : String)
    (storedResults : List Value) : List Value :=
  (utilsA (mget (findUserPipeline authUser sessionToken storedResults) "results")).getD []

/-- The trigger phases of the Trigger Dispatcher. -/
inductive TriggerType where
  | beforeSave
  | afterSave
  | beforeDelete
  | afterDelete
deriving DecidableEq

/-- Modelled from the spec: RunTrigger of the rest package (not under
src) dispatches the hook registered for a phase and class; the hook may
rewrite the new object or abort by returning an error; an absent hook
is a no-op.  The dispatch function is a parameter of the embedding. -/
structure TriggerEnv where
  run : TriggerType → String → Auth → Option Assoc → Option Assoc →
    Except String (Option Assoc)

/-- Modelled from the spec: GetUserRoles of the rest package (not under
src) resolves the role-pointer graph of the user lazily and caches the
result on the auth context for the request; the resolution itself is a
parameter. -/
def Auth.getUserRoles (fetchRoles : Option Assoc → List String) (a : Auth) : Auth :=
  if a.fetchedRoles then a
  else { a with userRoles := fetchRoles a.user, fetchedRoles := true }

/-- The Store adapter of the rest package, as a parameter: the result
of orm.Destroy, which destroy.go ignores. -/
structure StoreEnv where
  destroyResult : String → Assoc → Option (List String) → Except String Unit

/-- Embedding of the rest.Destroy structure of destroy.go. -/
structure DestroyReq where
  auth : Auth
  className : String
  query : Assoc
  originalData : Assoc

/-- A call issued to the Store: a delete-by-query with the class name,
the query filter, and the acl option (none when the options map has no
acl entry). -/
inductive StoreOp where
  | destroyOp (className : String) (query : Assoc) (acl : Option (List String))

/-- Embedding of Destroy.handleSession: only the _Session class is
examined, and the cache invalidation is an unimplemented TODO in the
source; no error is ever produced. -/
def destroyHandleSession (d : DestroyReq) : Except String Unit :=
  if d.className ≠ "_Session" then .ok ()
  else
    match mgetNonNil d.originalData "sessionToken" with
    | some _ => .ok ()
    | none => .ok ()

/-- Embedding of Destroy.runBeforeTrigger: RunTrigger is invoked for
BeforeDelete and its outcome is discarded; nil is returned always. -/
def destroyRunBeforeTrigger (tenv : TriggerEnv) (d : DestroyReq) : Except String Unit :=
  let _ := tenv.run .beforeDelete d.className d.auth none (some d.originalData)
  .ok ()

/-- Embedding of Destroy.handleUserRoles: a non-master auth context has
its roles resolved (and cached) before the delete. -/
def destroyHandleUserRoles (fetchRoles : Option Assoc → List String)
    (d : DestroyReq) : DestroyReq :=
  if d.auth.isMaster = false then { d with auth := d.auth.getUserRoles fetchRoles }
  else d

/-- Embedding of Destroy.runDestroy: a non-master request builds the
acl list from the wildcard, the user objectId (a panicking type
assertion) and the resolved roles; a master request passes empty
options. -/
def destroyRunDestroy (d : DestroyReq) : Panics StoreOp :=
  if d.auth.isMaster = false then
    match d.auth.user with
    | some u =>
      match assertString' (mget u "objectId") with
      | some oid =>
        .value (.destroyOp d.className d.query (some (("*" :: [oid]) ++ d.auth.userRoles)))
      | none => .panicked
    | none => .value (.destroyOp d.className d.query (some ["*"]))
  else .value (.destroyOp d.className d.query none)

/-- Embedding of Destroy.Execute: the five steps run in sequence, every
intermediate error value is discarded exactly as in the source, and nil
is returned.  The result pairs the trace of Store calls with the
returned map. -/
def destroyExecute (tenv : TriggerEnv) (senv : StoreEnv)
    (fetchRoles : Option Assoc → List String) (d : DestroyReq) :
    Panics (List StoreOp × Option Assoc) :=
  let _ := destroyHandleSession d
  let _ := destroyRunBeforeTrigger tenv d
  let d := destroyHandleUserRoles fetchRoles d
  match destroyRunDestroy d with
  | .panicked => .panicked
  | .value op =>
    let _ :=
      match op with
      | .destroyOp cn q acl => senv.destroyResult cn q acl
    let _ := tenv.run .afterDelete d.className d.auth none (some d.originalData)
    .value ([op], none)

/-- The configuration fields of the Account Lockout state machine:
AccountLockoutThreshold and AccountLockoutDuration (in minutes). -/
structure LockoutConfig where
  accountLockoutThreshold : Int
  accountLockoutDuration : Int

/-- The lockout fields stored on a user row: the optional failed-login
counter and the optional lockout expiry instant (both absent on a fresh
user).  Instants are modelled as seconds. -/
structure LockRecord where
  failedLoginCount : Option Int
  lockoutExpiresAt : Option Int
deriving DecidableEq

/-- The locked-account error message, with the configured duration
rendered exactly as strconv.Itoa renders it in the test file. -/
def lockedMessage (cfg : LockoutConfig) : String :=
  "Your account is locked due to multiple failed login attempts. Please try again after "
    ++ toString cfg.accountLockoutDuration ++ " minute(s)"

/-- Modelled from the spec: AccountLockout.notLocked (the rest package
implementation file is not under src; src/unnamed/part_000 holds its
tests).  It fails with ObjectNotFound and the locked-account message
exactly when a lockout record exists with now before the expiry instant
and a failed count at or above the threshold; in every other case,
including an already-passed expiry, it succeeds. -/
def notLocked (cfg : LockoutConfig) (now : Int) (u : LockRecord) : Option ApiErr :=
  match u.lockoutExpiresAt, u.failedLoginCount with
  | some expiresAt, some count =>
    if now < expiresAt ∧ cfg.accountLockoutThreshold ≤ count then
      some ⟨objectNotFound, lockedMessage cfg⟩
    else none
  | _, _ => none

/-- Modelled from the spec: the failed-password-check transition of the
Account Lockout state machine (rest package implementation not under
src; tests in src/unnamed/part_000).  The counter is initialized to 1
when not yet set and incremented otherwise; when the post-increment
count reaches the threshold the expiry is set to now plus the
configured duration in minutes. -/
def handleFailedLoginAttempt (cfg : LockoutConfig) (now : Int) (u : LockRecord) :
    LockRecord :=
  let newCount : Int :=
    match u.failedLoginCount with
    | none => 1
    | some c => c + 1
  let u := { u with failedLoginCount := some newCount }
  if newCount = cfg.accountLockoutThreshold then
    { u with lockoutExpiresAt := some (now + 60 * cfg.accountLockoutDuration) }
  else u

/-- C3: notLocked fails with ObjectNotFound and the locked-account
message naming the configured duration exactly when a lockout record
exists with now before the expiry and a failed count at or above the
threshold, and succeeds in every other case, including an
already-passed expiry. -/
theorem notLocked_characterization (cfg : LockoutConfig) (now : Int) (u : LockRecord) :
    (notLocked cfg now u = some ⟨objectNotFound, lockedMessage cfg⟩ ↔
      ∃ expiresAt count, u.lockoutExpiresAt = some expiresAt ∧
        u.failedLoginCount = some count ∧ now < expiresAt ∧
        cfg.accountLockoutThreshold ≤ count)
  ∧ (notLocked cfg now u = none ↔
      ¬ ∃ expiresAt count, u.lockoutExpiresAt = some expiresAt ∧
        u.failedLoginCount = some count ∧ now < expiresAt ∧
        cfg.accountLockoutThreshold ≤ count) := by
  obtain ⟨fc, ea⟩ := u
  cases ea with
  | none => simp [notLocked]
  | some e =>
    cases fc with
    | none => simp [notLocked]
    | some c =>
      by_cases h : now < e ∧ cfg.accountLockoutThreshold ≤ c
      · simp [notLocked, h, h.1, h.2]
      · have hval : notLocked cfg now ⟨some c, some e⟩ = none := by
          simp [notLocked, h]
        rw [hval]
        constructor
        · constructor
          · intro hfalse
            exact absurd hfalse (by simp)
          · rintro ⟨ea', ct', hea, hct, hlt, hle⟩
            cases hea
            cases hct
            exact absurd ⟨hlt, hle⟩ h
        · constructor
          · rintro - ⟨ea', ct', hea, hct, hlt, hle⟩
            cases hea
            cases hct
            exact absurd ⟨hlt, hle⟩ h
          · intro _
            rfl

/-- C7: on a failed password check the counter is initialized to 1 when
unset and incremented by exactly 1 otherwise; the expiry is set to now
plus the configured duration exactly when the post-increment count
reaches the threshold, and is left as it was when the count stays
below it. -/
theorem handleFailedLoginAttempt_spec (cfg : LockoutConfig) (now : Int) (u : LockRecord) :
    (u.failedLoginCount = none →
      (handleFailedLoginAttempt cfg now u).failedLoginCount = some 1)
  ∧ (∀ c, u.failedLoginCount = some c →
      (handleFailedLoginAttempt cfg now u).failedLoginCount = some (c + 1))
  ∧ (∀ c, (handleFailedLoginAttempt cfg now u).failedLoginCount = some c →
      (c = cfg.accountLockoutThreshold →
        (handleFailedLoginAttempt cfg now u).lockoutExpiresAt =
          some (now + 60 * cfg.accountLockoutDuration))
      ∧ (c < cfg.accountLockoutThreshold →
        (handleFailedLoginAttempt cfg now u).lockoutExpiresAt = u.lockoutExpiresAt)) := by
  obtain ⟨fc, ea⟩ := u
  cases fc with
  | none =>
    refine ⟨?_, ?_, ?_⟩
    · intro _
      simp [handleFailedLoginAttempt, apply_ite LockRecord.failedLoginCount]
    · intro c hc
      exact Option.noConfusion hc
    · intro c hc
      have hc1 : c = 1 := by
        simpa [handleFailedLoginAttempt, apply_ite LockRecord.failedLoginCount] using hc.symm
      subst hc1
      constructor
      · intro hth
        simp [handleFailedLoginAttempt, hth]
      · intro hlt
        have hne : (1 : Int) ≠ cfg.accountLockoutThreshold := ne_of_lt hlt
        simp [handleFailedLoginAttempt, hne]
  | some c0 =>
    refine ⟨?_, ?_, ?_⟩
    · intro hn
      exact Option.noConfusion hn
    · intro c hc
      have hcc : c = c0 := by
        simpa using hc.symm
      subst hcc
      simp [handleFailedLoginAttempt, apply_ite LockRecord.failedLoginCount]
    · intro c hc
      have hc1 : c = c0 + 1 := by
        simpa [handleFailedLoginAttempt, apply_ite LockRecord.failedLoginCount] using hc.symm
      subst hc1
      constructor
      · intro hth
        simp [handleFailedLoginAttempt, hth]
      · intro hlt
        have hne : c0 + 1 ≠ cfg.accountLockoutThreshold := ne_of_lt hlt
        simp [handleFailedLoginAttempt, hne]

/-- Witness for C7 at a concrete input: a user with two recorded
failures, threshold 3 and duration 5 minutes; the third failure
increments the counter to 3 and installs the expiry. -/
theorem handleFailedLoginAttempt_spec_witness :
    (handleFailedLoginAttempt ⟨3, 5⟩ 0 ⟨some 2, none⟩).failedLoginCount = some 3
    ∧ (handleFailedLoginAttempt ⟨3, 5⟩ 0 ⟨some 2, none⟩).lockoutExpiresAt = some 300 := by
  have h := handleFailedLoginAttempt_spec ⟨3, 5⟩ 0 ⟨some 2, none⟩
  have hcount : (handleFailedLoginAttempt ⟨3, 5⟩ 0 ⟨some 2, none⟩).failedLoginCount = some 3 := by
    have := h.2.1 2 rfl
    norm_num at this
    exact this
  exact ⟨hcount, by
    have := (h.2.2 3 hcount).1 (by norm_num)
    norm_num at this
    exact this⟩

/-- C9: Destroy.Execute always returns nil, whatever the trigger
dispatcher, the Store, the role resolver and the request supply; no
error from any sub-step reaches the caller. -/
theorem destroyExecute_returns_nil (tenv : TriggerEnv) (senv : StoreEnv)
    (fetchRoles : Option Assoc → List String) (d : DestroyReq) :
    ∀ trace result, destroyExecute tenv senv fetchRoles d = .value (trace, result) →
      result = none := by
  intro trace result h
  simp only [destroyExecute] at h
  split at h
  · exact Panics.noConfusion h
  · injection h with h'
    injection h' with h1 h2
    exact h2.symm

/-- The trigger environment of the C9 witness: every hook reports
success. -/
def allOkTriggers : TriggerEnv := ⟨fun _ _ _ _ _ => .ok none⟩

/-- The Store environment of the C9 witness: deletes succeed. -/
def allOkStore : StoreEnv := ⟨fun _ _ _ => .ok ()⟩

/-- A concrete master-key delete request. -/
def masterDeleteReq : DestroyReq :=
  ⟨⟨true, none, [], false, ""⟩, "Post", [("objectId", Value.str "p1")], []⟩

/-- Witness for C9 at a concrete input: a master delete runs through
Execute and the theorem yields that the returned map is nil. -/
theorem destroyExecute_returns_nil_witness :
    destroyExecute allOkTriggers allOkStore (fun _ => []) masterDeleteReq =
      .value ([StoreOp.destroyOp "Post" [("objectId", Value.str "p1")] none], none)
    ∧ (none : Option Assoc) = none := by
  refine ⟨rfl, ?_⟩
  exact destroyExecute_returns_nil allOkTriggers allOkStore (fun _ => [])
    masterDeleteReq [StoreOp.destroyOp "Post" [("objectId", Value.str "p1")] none] none rfl

/-- The trigger environment of the C2 failing input: the BeforeDelete
hook aborts with an error. -/
def abortingTriggers : TriggerEnv :=
  ⟨fun phase _ _ _ _ =>
    if phase = TriggerType.beforeDelete then .error "hook rejected" else .ok none⟩

/-- The non-master anonymous delete request of the C2 failing input. -/
def anonDeleteReq : DestroyReq :=
  ⟨⟨false, none, [], false, ""⟩, "Post", [("objectId", Value.str "p1")], []⟩

/-- C2: evaluation of Destroy.Execute at the failing input.  The
registered BeforeDelete hook returns the error "hook rejected", yet the
operation does not abort: the delete is still issued to the Store and
Execute returns nil instead of propagating the error, refuting the
claimed abort-and-propagate behaviour. -/
theorem destroy_ignores_beforeDelete_error :
    abortingTriggers.run TriggerType.beforeDelete "Post" anonDeleteReq.auth none
      (some anonDeleteReq.originalData) = .error "hook rejected"
    ∧ destroyExecute abortingTriggers allOkStore (fun _ => []) anonDeleteReq =
        .value ([StoreOp.destroyOp "Post" [("objectId", Value.str "p1")] (some ["*"])], none) := by
  exact ⟨rfl, rfl⟩

/-- C4: the delete issued to the Store by a non-master request is
constrained by the acl list holding the wildcard, the caller objectId
and the resolved roles (just the wildcard for an anonymous caller); a
master request issues the delete with no acl constraint. -/
theorem destroy_acl_constraint (tenv : TriggerEnv) (senv : StoreEnv)
    (fetchRoles : Option Assoc → List String) (d : DestroyReq) :
    (d.auth.isMaster = false → ∀ u oid, d.auth.user = some u →
      mget u "objectId" = some (Value.str oid) →
      destroyExecute tenv senv fetchRoles d =
        .value ([StoreOp.destroyOp d.className d.query
          (some ("*" :: oid :: (d.auth.getUserRoles fetchRoles).userRoles))], none))
  ∧ (d.auth.isMaster = false → d.auth.user = none →
      destroyExecute tenv senv fetchRoles d =
        .value ([StoreOp.destroyOp d.className d.query (some ["*"])], none))
  ∧ (d.auth.isMaster = true →
      destroyExecute tenv senv fetchRoles d =
        .value ([StoreOp.destroyOp d.className d.query none], none)) := by
  refine ⟨?_, ?_, ?_⟩
  · intro hm u oid hu hoid
    unfold destroyExecute destroyHandleUserRoles destroyRunDestroy Auth.getUserRoles
    by_cases hf : d.auth.fetchedRoles <;>
      simp [hm, hu, hoid, assertString', hf]
  · intro hm hu
    unfold destroyExecute destroyHandleUserRoles destroyRunDestroy Auth.getUserRoles
    by_cases hf : d.auth.fetchedRoles <;>
      simp [hm, hu, hf]
  · intro hm
    unfold destroyExecute destroyHandleUserRoles destroyRunDestroy
    simp [hm]

/-- The auth context of the C4 witness: a logged-in non-master user. -/
def c4Auth : Auth := ⟨false, some [("objectId", Value.str "u1")], [], false, "inst"⟩

/-- The delete request of the C4 witness. -/
def c4Req : DestroyReq := ⟨c4Auth, "Game", [("objectId", Value.str "g1")], []⟩

/-- Witness for C4 at a concrete input: the resolved role list is
appended after the wildcard and the caller objectId. -/
theorem destroy_acl_constraint_witness :
    destroyExecute allOkTriggers allOkStore (fun _ => ["role:admin"]) c4Req =
      .value ([StoreOp.destroyOp "Game" [("objectId", Value.str "g1")]
        (some ["*", "u1", "role:admin"])], none) := by
  exact (destroy_acl_constraint allOkTriggers allOkStore (fun _ => ["role:admin"]) c4Req).1
    rfl [("objectId", Value.str "u1")] "u1" rfl rfl

/-- C5: credential resolution precedence in the validation tail of
Prepare: a mismatched appID is Unauthorized; with a matching appID a
matching master key yields an isMaster context at once, whatever the
client key, session token and session resolver hold; otherwise a
mismatched client key is Unauthorized. -/
theorem validateKeys_precedence (cfg : Config) (env : PrepareEnv) (url : String)
    (info : RequestInfo) (jsonBody : Option Assoc) (rawBody : Option String) :
    (info.appID ≠ cfg.appID →
      validateKeys cfg env url info jsonBody rawBody =
        .respond (some 403) 403 "unauthorized")
  ∧ (info.appID = cfg.appID → info.masterKey = cfg.masterKey →
      validateKeys cfg env url info jsonBody rawBody =
        .proceed info ⟨true, none, [], false, info.installationID⟩ jsonBody rawBody)
  ∧ (info.appID = cfg.appID → info.masterKey ≠ cfg.masterKey →
      info.clientKey ≠ cfg.clientKey →
      validateKeys cfg env url info jsonBody rawBody =
        .respond (some 403) 403 "unauthorized") := by
  refine ⟨?_, ?_, ?_⟩
  · intro h
    simp [validateKeys, h]
  · intro h1 h2
    simp [validateKeys, h1, h2]
  · intro h1 h2 h3
    simp [validateKeys, h1, h2, h3]

/-- Witness for C5 at a concrete input: matching appID and master key
short-circuit to a master context while the client key is wrong and a
session token is present; the resolver below never fires. -/
theorem validateKeys_precedence_witness :
    validateKeys ⟨"app1", "mk", "ck"⟩
      ⟨fun _ => none, fun _ => none, fun _ _ => .error ⟨209, "never"⟩⟩
      "/classes/Post"
      ⟨"app1", "mk", "wrong", "tok", "inst", ""⟩ none none =
      .proceed ⟨"app1", "mk", "wrong", "tok", "inst", ""⟩
        ⟨true, none, [], false, "inst"⟩ none none := by
  exact (validateKeys_precedence ⟨"app1", "mk", "ck"⟩
    ⟨fun _ => none, fun _ => none, fun _ _ => .error ⟨209, "never"⟩⟩
    "/classes/Post" ⟨"app1", "mk", "wrong", "tok", "inst", ""⟩ none none).2.1 rfl rfl

/-- C6: evaluation of the HandleGet tail at the failing input.  A
response whose results list is present but empty is indexed at position
0 and panics, instead of producing the ObjectNotFound error the claim
requires; only an absent (nil) results list produces that error. -/
theorem handleGet_empty_results_crash :
    handleGetOutput "Game" none "" [("results", Value.arr [])] = GetOutcome.panicked
    ∧ handleGetOutput "Game" none "" [] =
        GetOutcome.failure objectNotFound "Object not found." := by
  exact ⟨rfl, rfl⟩

/-- C10: a body that fails JSON decoding is rejected (as invalid JSON)
exactly when the content type starts with application/json; under any
other content type the bytes are kept as the raw body and no error is
produced; at the Prepare level the json-content-type failure serves the
InvalidJSON error. -/
theorem parseBody_contentType_spec (unmarshal : String → Option (Option Assoc))
    (contentType : String) (b : String) :
    (goStartsWith contentType "application/json" = true → unmarshal b = none →
      parseBody unmarshal contentType (some b) = .reject)
  ∧ (parseBody unmarshal contentType (some b) = .reject →
      goStartsWith contentType "application/json" = true ∧ unmarshal b = none)
  ∧ (goStartsWith contentType "application/json" = false → unmarshal b = none →
      parseBody unmarshal contentType (some b) = .parsed none (some b))
  ∧ (∀ cfg env req, env.unmarshal = unmarshal →
      req.contentTypeHeader = contentType → req.requestBody = some b →
      goStartsWith contentType "application/json" = true → unmarshal b = none →
      prepare cfg env req = .respond none invalidJSON "invalid JSON") := by
  refine ⟨?_, ?_, ?_, ?_⟩
  · intro hct hu
    simp [parseBody, hct, hu]
  · intro h
    by_cases hct : goStartsWith contentType "application/json"
    · cases hu : unmarshal b with
      | none => exact ⟨hct, rfl⟩
      | some mo =>
        simp [parseBody, hct, hu] at h
    · cases hu : unmarshal b with
      | none => simp [parseBody, hct, hu] at h
      | some mo => simp [parseBody, hct, hu] at h
  · intro hct hu
    simp [parseBody, hct, hu]
  · intro cfg env req henv hct hbody hstart hu
    unfold prepare
    rw [hct, hbody, henv]
    simp [parseBody, hstart, hu]

/-- Witness for C10 at concrete inputs: an unparseable body under
text/plain is kept raw, and the same body under application/json makes
Prepare serve the InvalidJSON error. -/
theorem parseBody_contentType_spec_witness :
    parseBody (fun _ => none) "text/plain" (some "rawbytes") =
      ParseBodyResult.parsed none (some "rawbytes")
    ∧ prepare ⟨"app1", "mk", "ck"⟩
        ⟨fun _ => none, fun _ => none, fun _ _ => .error ⟨209, "never"⟩⟩
        ⟨"app1", "", "", "", "", "", "application/json", "", some "rawbytes", "/classes/Post"⟩ =
        PrepareResult.respond none invalidJSON "invalid JSON" := by
  constructor
  · exact (parseBody_contentType_spec (fun _ => none) "text/plain" "rawbytes").2.2.1
      (by decide) rfl
  · exact (parseBody_contentType_spec (fun _ => none) "application/json" "rawbytes").2.2.2
      ⟨"app1", "mk", "ck"⟩
      ⟨fun _ => none, fun _ => none, fun _ _ => .error ⟨209, "never"⟩⟩
      ⟨"app1", "", "", "", "", "", "application/json", "", some "rawbytes", "/classes/Post"⟩
      rfl rfl rfl (by decide) rfl

theorem assertString'_eq_some (x : Option Value) (s : String) :
    assertString' x = some s ↔ x = some (Value.str s) := by
  cases x with
  | none => simp [assertString']
  | some v => cases v <;> simp [assertString']

theorem isRequestingUser_mset_token (authUser : Option Assoc) (m : Assoc) (v : Value) :
    isRequestingUser authUser (mset m "sessionToken" v) = isRequestingUser authUser m := by
  have hne : ("objectId" : String) ≠ "sessionToken" := by decide
  cases authUser with
  | none => rfl
  | some u => simp [isRequestingUser, hne]

theorem isRequestingUser_mdel_token (authUser : Option Assoc) (m : Assoc) :
    isRequestingUser authUser (mdel m "sessionToken") = isRequestingUser authUser m := by
  have hne : ("objectId" : String) ≠ "sessionToken" := by decide
  cases authUser with
  | none => rfl
  | some u => simp [isRequestingUser, hne]

theorem findUserResults_eq (authUser : Option Assoc) (tok : String) (stored : List Value) :
    findUserResults authUser tok stored =
      ((stored.map (redactUserOne authUser tok)).map (findTokenRewrite tok)) := by
  simp [findUserResults, findUserPipeline, handleFindOutput, hasResults, utilsA,
    restFindRedact, mget]

theorem findTokenRewrite_obj (tok : String) (m : Assoc) :
    findTokenRewrite tok (Value.obj m) =
      if (mgetNonNil m "sessionToken").isSome ∧ tok ≠ "" then
        Value.obj (mset m "sessionToken" (Value.str tok))
      else Value.obj m := rfl

theorem redact_rewrite_token (authUser : Option Assoc) (tok : String) (s : Value)
    (m : Assoc) (w : Value)
    (hm : findTokenRewrite tok (redactUserOne authUser tok s) = Value.obj m)
    (hw : mget m "sessionToken" = some w) :
    isRequestingUser authUser m = true ∧ w = Value.str tok := by
  cases s with
  | obj m0 =>
    by_cases hown : isRequestingUser authUser m0
    · simp only [redactUserOne, hown, if_true] at hm
      have hget : mgetNonNil (mset m0 "sessionToken" (Value.str tok)) "sessionToken" =
          some (Value.str tok) := by
        simp [mgetNonNil]
      rw [findTokenRewrite_obj, hget] at hm
      by_cases htok : tok = ""
      · rw [if_neg (by simp [htok])] at hm
        injection hm with h1
        subst h1
        rw [mget_mset, if_pos rfl] at hw
        injection hw with h2
        subst h2
        refine ⟨?_, rfl⟩
        rw [isRequestingUser_mset_token]
        exact hown
      · rw [if_pos ⟨rfl, htok⟩] at hm
        injection hm with h1
        subst h1
        rw [mget_mset, if_pos rfl] at hw
        injection hw with h2
        subst h2
        refine ⟨?_, rfl⟩
        rw [isRequestingUser_mset_token, isRequestingUser_mset_token]
        exact hown
    · simp only [redactUserOne, hown, Bool.false_eq_true, if_false] at hm
      have hget : mgetNonNil (mdel m0 "sessionToken") "sessionToken" = none := by
        simp [mgetNonNil]
      rw [findTokenRewrite_obj, hget] at hm
      rw [if_neg (by simp)] at hm
      injection hm with h1
      subst h1
      rw [mget_mdel, if_pos rfl] at hw
      exact Option.noConfusion hw
  | null => simp [redactUserOne, findTokenRewrite] at hm
  | str s' => simp [redactUserOne, findTokenRewrite] at hm
  | num n => simp [redactUserOne, findTokenRewrite] at hm
  | boolVal b => simp [redactUserOne, findTokenRewrite] at hm
  | arr l => simp [redactUserOne, findTokenRewrite] at hm

/-- C1: a Find or a Get on class _User never serves a result carrying a
sessionToken field, except a result that is the requesting user, whose
token equals the session token of the current request (not the stored
one). -/
theorem userSessionToken_redaction (authUser : Option Assoc) (tok : String)
    (stored : List Value) (response : Assoc) :
    (∀ v ∈ findUserResults authUser tok stored, ∀ m, v = Value.obj m →
      ∀ w, mget m "sessionToken" = some w →
        isRequestingUser authUser m = true ∧ w = Value.str tok)
  ∧ (∀ out w, handleGetOutput "_User" authUser tok response = GetOutcome.success (some out) →
      mget out "sessionToken" = some w →
        isRequestingUser authUser out = true ∧ w = Value.str tok) := by
  constructor
  · intro v hv m hm w hw
    rw [findUserResults_eq] at hv
    obtain ⟨v1, hv1, rfl⟩ := List.mem_map.mp hv
    obtain ⟨s, hs, rfl⟩ := List.mem_map.mp hv1
    exact redact_rewrite_token authUser tok s m w hm hw
  · intro out w hrun hw
    have hne : ("objectId" : String) ≠ "sessionToken" := by decide
    simp only [handleGetOutput] at hrun
    cases hA : utilsA (mget response "results") with
    | none =>
      rw [hA] at hrun
      exact GetOutcome.noConfusion hrun
    | some l =>
      rw [hA] at hrun
      cases l with
      | nil => exact GetOutcome.noConfusion hrun
      | cons first rest' =>
      dsimp only at hrun
      rw [if_pos trivial] at hrun
      cases hM : utilsM first with
      | none =>
        rw [hM] at hrun
        cases authUser with
        | none =>
          simp only [Option.map_none'] at hrun
          injection hrun with h1
          exact Option.noConfusion h1
        | some u =>
          simp only [Option.map_none'] at hrun
          cases hob : assertString' (lookupOpt none "objectId") with
          | none => simp [hob, lookupOpt, assertString'] at hrun
          | some rid => simp [lookupOpt, assertString'] at hob
      | some m0 =>
        rw [hM] at hrun
        simp only [Option.map_some'] at hrun
        cases authUser with
        | none =>
          dsimp only at hrun
          injection hrun with h1
          injection h1 with h2
          subst h2
          rw [mget_mdel, if_pos rfl] at hw
          exact Option.noConfusion hw
        | some u =>
          dsimp only at hrun
          cases hob : assertString' (lookupOpt (some (mdel m0 "sessionToken")) "objectId") with
          | none =>
            rw [hob] at hrun
            dsimp only at hrun
            exact GetOutcome.noConfusion hrun
          | some rid =>
            cases huid : assertString' (mget u "objectId") with
            | none =>
              rw [hob, huid] at hrun
              dsimp only at hrun
              exact GetOutcome.noConfusion hrun
            | some uid =>
              rw [hob, huid] at hrun
              dsimp only at hrun
              by_cases hid : rid = uid
              · rw [if_pos hid] at hrun
                injection hrun with h1
                injection h1 with h2
                subst h2
                rw [mget_mset, if_pos rfl] at hw
                cases hw
                refine ⟨?_, rfl⟩
                rw [isRequestingUser_mset_token, isRequestingUser_mdel_token]
                have hrid : mget m0 "objectId" = some (Value.str rid) := by
                  have := (assertString'_eq_some _ _).mp hob
                  simpa [lookupOpt, mget_mdel, hne] using this
                have huid' : mget u "objectId" = some (Value.str uid) :=
                  (assertString'_eq_some _ _).mp huid
                simp [isRequestingUser, hrid, huid', hid]
              · rw [if_neg hid] at hrun
                injection hrun with h1
                injection h1 with h2
                subst h2
                rw [mget_mdel, if_pos rfl] at hw
                exact Option.noConfusion hw

/-- Witness for C1 at a concrete input: a _User Find whose stored rows
carry stored tokens; the requesting user's own served row carries the
request token (not the stored one), as the theorem concludes for it. -/
theorem userSessionToken_redaction_witness :
    findUserResults (some [("objectId", Value.str "u1")]) "tok9"
      [Value.obj [("objectId", Value.str "u1"), ("sessionToken", Value.str "stored")],
       Value.obj [("objectId", Value.str "u2"), ("sessionToken", Value.str "other")]] =
      [Value.obj [("objectId", Value.str "u1"), ("sessionToken", Value.str "tok9")],
       Value.obj [("objectId", Value.str "u2")]]
    ∧ isRequestingUser (some [("objectId", Value.str "u1")])
        [("objectId", Value.str "u1"), ("sessionToken", Value.str "tok9")] = true := by
  have hres : findUserResults (some [("objectId", Value.str "u1")]) "tok9"
      [Value.obj [("objectId", Value.str "u1"), ("sessionToken", Value.str "stored")],
       Value.obj [("objectId", Value.str "u2"), ("sessionToken", Value.str "other")]] =
      [Value.obj [("objectId", Value.str "u1"), ("sessionToken", Value.str "tok9")],
       Value.obj [("objectId", Value.str "u2")]] := rfl
  refine ⟨hres, ?_⟩
  have h := (userSessionToken_redaction (some [("objectId", Value.str "u1")]) "tok9"
    [Value.obj [("objectId", Value.str "u1"), ("sessionToken", Value.str "stored")],
     Value.obj [("objectId", Value.str "u2"), ("sessionToken", Value.str "other")]] []).1
    (Value.obj [("objectId", Value.str "u1"), ("sessionToken", Value.str "tok9")])
    (by rw [hres]; exact List.mem_cons_self _ _)
    [("objectId", Value.str "u1"), ("sessionToken", Value.str "tok9")] rfl
    (Value.str "tok9") rfl
  exact h.1

/-- A body key is admissible for consumption: absent, or holding a
string value (so the type assertion cannot panic and the non-nil test
is the presence test). -/
def strOrAbsent (m : Assoc) (k : String) : Prop :=
  mget m k = none ∨ ∃ s, mget m k = some (Value.str s)

theorem consumeStr_eq (m : Assoc) (k : String) (h : strOrAbsent m k) :
    consumeStr m k = .value ((mget m k).bind assertString, mdel m k) := by
  rcases h with h | ⟨s, h⟩
  · simp [consumeStr, mgetNonNil, h, mdel_of_absent m k h]
  · simp [consumeStr, mgetNonNil, h, assertString]

theorem strOrAbsent_congr {m1 m2 : Assoc} {k : String}
    (e : mget m1 k = mget m2 k) (h : strOrAbsent m2 k) : strOrAbsent m1 k := by
  rcases h with h | ⟨s, h⟩
  · exact Or.inl (e.trans h)
  · exact Or.inr ⟨s, e.trans h⟩

/-- The environment of the C8 counterexample: the JSON decoder yields a
body still holding a _SessionToken key. -/
def c8Env : PrepareEnv :=
  ⟨fun _ => some (some [("_SessionToken", Value.str "stolen")]),
   fun _ => none, fun _ _ => .error ⟨209, "never"⟩⟩

/-- The request of the C8 counterexample: the appID arrives through the
header, so the body-override step is skipped entirely. -/
def c8Req : HttpRequest :=
  ⟨"app1", "mk", "", "", "", "", "application/json", "", some "bodybytes",
   "/classes/Post"⟩

/-- C8 counterexample: a request whose appID comes from the header and
whose JSON body holds a _SessionToken key proceeds to the handlers with
that key still present in the body, refuting the claim that every
request has the reserved keys stripped before the body reaches an
Orchestrator. -/
theorem prepare_keeps_reserved_keys_with_header_appID :
    prepare ⟨"app1", "mk", "ck"⟩ c8Env c8Req =
      .proceed ⟨"app1", "mk", "", "", "", ""⟩ ⟨true, none, [], false, ""⟩
        (some [("_SessionToken", Value.str "stolen")]) none
    ∧ mget [("_SessionToken", Value.str "stolen")] "_SessionToken" =
        some (Value.str "stolen") := by
  exact ⟨rfl, rfl⟩

/-- C8 (amended): when the appID is taken from the JSON body (no header
appID) and the reserved keys hold admissible values, every reserved key
is consumed into the request info and removed from the body that the
override step passes on; the credential-validation tail then hands the
body to the handlers unchanged. -/
theorem bodyOverrides_strips_reserved (info : RequestInfo) (m : Assoc) (a : String)
    (h0 : info.appID = "")
    (hApp : mget m "_ApplicationId" = some (Value.str a))
    (hCK : strOrAbsent m "_ClientKey")
    (hIK : strOrAbsent m "_InstallationId")
    (hST : strOrAbsent m "_SessionToken")
    (hMK : strOrAbsent m "_MasterKey")
    (hCT : strOrAbsent m "_ContentType") :
    (bodyOverrides info (some m) =
      .okOv
        { info with
            appID := a,
            clientKey := ((mget m "_ClientKey").bind assertString).getD info.clientKey,
            installationID :=
              ((mget m "_InstallationId").bind assertString).getD info.installationID,
            sessionToken :=
              ((mget m "_SessionToken").bind assertString).getD info.sessionToken,
            masterKey := ((mget m "_MasterKey").bind assertString).getD info.masterKey }
        (some (mdel (mdel (mdel (mdel (mdel (mdel (mdel m "_RevocableSession")
          "_ApplicationId") "_ClientKey") "_InstallationId") "_SessionToken")
          "_MasterKey") "_ContentType"))
        ((mget m "_ContentType").bind assertString)
      ∧ (∀ k, k = "_ApplicationId" ∨ k = "_ClientKey" ∨ k = "_InstallationId" ∨
          k = "_SessionToken" ∨ k = "_MasterKey" ∨ k = "_ContentType" →
          mget (mdel (mdel (mdel (mdel (mdel (mdel (mdel m "_RevocableSession")
            "_ApplicationId") "_ClientKey") "_InstallationId") "_SessionToken")
            "_MasterKey") "_ContentType") k = none))
  ∧ (∀ cfg env url i2 jb rb i3 a3 jb3 rb3,
      validateKeys cfg env url i2 jb rb = PrepareResult.proceed i3 a3 jb3 rb3 →
        jb3 = jb) := by
  constructor
  · have e1 : mget (mdel (mdel m "_RevocableSession") "_ApplicationId") "_ClientKey" =
        mget m "_ClientKey" := by simp
    have e2 : mget (mdel (mdel (mdel m "_RevocableSession") "_ApplicationId")
        "_ClientKey") "_InstallationId" = mget m "_InstallationId" := by simp
    have e3 : mget (mdel (mdel (mdel (mdel m "_RevocableSession") "_ApplicationId")
        "_ClientKey") "_InstallationId") "_SessionToken" = mget m "_SessionToken" := by
      simp
    have e4 : mget (mdel (mdel (mdel (mdel (mdel m "_RevocableSession")
        "_ApplicationId") "_ClientKey") "_InstallationId") "_SessionToken")
        "_MasterKey" = mget m "_MasterKey" := by simp
    have e5 : mget (mdel (mdel (mdel (mdel (mdel (mdel m "_RevocableSession")
        "_ApplicationId") "_ClientKey") "_InstallationId") "_SessionToken")
        "_MasterKey") "_ContentType" = mget m "_ContentType" := by simp
    have hAppR : mgetNonNil (mdel m "_RevocableSession") "_ApplicationId" =
        some (Value.str a) := by simp [mgetNonNil, hApp]
    constructor
    · unfold bodyOverrides
      rw [h0, if_pos rfl]
      dsimp only [Option.map_some']
      rw [hAppR]
      dsimp only [assertString]
      rw [consumeStr_eq _ _ (strOrAbsent_congr e1 hCK), e1]
      dsimp only
      rw [consumeStr_eq _ _ (strOrAbsent_congr e2 hIK), e2]
      dsimp only
      rw [consumeStr_eq _ _ (strOrAbsent_congr e3 hST), e3]
      dsimp only
      rw [consumeStr_eq _ _ (strOrAbsent_congr e4 hMK), e4]
      dsimp only
      rw [consumeStr_eq _ _ (strOrAbsent_congr e5 hCT), e5]
    · intro k hk
      rcases hk with h | h | h | h | h | h <;> subst h <;> simp
  · intro cfg env url i2 jb rb i3 a3 jb3 rb3 h
    unfold validateKeys at h
    by_cases h1 : i2.appID ≠ cfg.appID
    · rw [if_pos h1] at h
      exact PrepareResult.noConfusion h
    · rw [if_neg h1] at h
      by_cases h2 : i2.masterKey = cfg.masterKey
      · rw [if_pos h2] at h
        injection h with e1 e2 e3 e4
        exact e3.symm
      · rw [if_neg h2] at h
        by_cases h3 : i2.clientKey ≠ cfg.clientKey
        · rw [if_pos h3] at h
          exact PrepareResult.noConfusion h
        · rw [if_neg h3] at h
          dsimp only at h
          by_cases hses : (if goEndsWith url "/login/" then
              { i2 with sessionToken := "" } else i2).sessionToken = ""
          · rw [if_pos hses] at h
            injection h with e1 e2 e3 e4
            exact e3.symm
          · rw [if_neg hses] at h
            split at h
            · exact PrepareResult.noConfusion h
            · injection h with e1 e2 e3 e4
              exact e3.symm

/-- Witness for C8 at a concrete input: a body-credential request whose
body carries the application id, a session token and an ordinary field;
the reserved keys are consumed and only the ordinary field survives. -/
theorem bodyOverrides_strips_reserved_witness :
    bodyOverrides ⟨"", "", "", "", "", ""⟩
      (some [("_ApplicationId", Value.str "app1"), ("_SessionToken", Value.str "tok"),
        ("x", Value.str "keep")]) =
      .okOv ⟨"app1", "", "", "tok", "", ""⟩ (some [("x", Value.str "keep")]) none := by
  have h := (bodyOverrides_strips_reserved ⟨"", "", "", "", "", ""⟩
    [("_ApplicationId", Value.str "app1"), ("_SessionToken", Value.str "tok"),
      ("x", Value.str "keep")] "app1" rfl rfl (Or.inl rfl) (Or.inl rfl)
    (Or.inr ⟨"tok", rfl⟩) (Or.inl rfl) (Or.inl rfl)).1.1
  exact h

end Tomato
